import Mathlib

/-!
Shallow embedding of `core1ae-Scheveningen.ino` ("West Coast Osc" /
"Scheveningen" oscillator for the Ginko Synthese Grains module).

Machine integers are modelled as `Nat` with explicit reduction:
a `uint16_t` value is reduced `% 65536`, a `uint32_t` value `% 4294967296`,
a `uint8_t` value `% 256`.  Reads of a fixed-width variable are reduced at
the point of use, so every definition is total and hypothesis-free.
Bitwise complement `~v` of a `uint16_t` quantity `v` is `65535 - v`
(valid because every complemented quantity here is at most 65535).
Binary mask literals from the source are written in decimal:
`0b1000000000000000 = 32768`, `0b1111111100000000 = 65280`,
`0b0000000100000000 = 256`, `0b0000000011111111 = 255`,
`0b0000000001111111 = 127`.
-/

namespace Scheveningen

/-- The global mutable state of the sketch: one field per global variable. -/
@[ext]
structure OscState where
  master_polarity : Bool
  slave_polarity : Bool
  output : Nat
  master_phase : Nat
  phase_inc : Nat
  slave_offset_current : Nat
  slave_offset_measured : Nat
  wrap_factor : Nat
  neg_wrap_factor : Nat
  slave_phase : Nat
  master_value : Nat
  slave_value : Nat
  accumulator : Nat
deriving DecidableEq

/-- Initial values of the globals, as declared at the top of the sketch. -/
def initState : OscState :=
  { master_polarity := false
    slave_polarity := false
    output := 0
    master_phase := 0
    phase_inc := 1
    slave_offset_current := 1
    slave_offset_measured := 1
    wrap_factor := 64
    neg_wrap_factor := 64
    slave_phase := 0
    master_value := 0
    slave_value := 0
    accumulator := 0 }

/-- `loop()`: `min( 1023, analogRead(PITCH_CV) + max(0, analogRead(PITCH_KNOB)-600))`.
Arduino `analogRead` yields an `int` in [0,1023]; the arithmetic is signed. -/
def effectivePitch (cv knob : Int) : Int :=
  min 1023 (cv + max 0 (knob - 600))

/-- `loop()`, the control-rate sampler.  `lookup` models the external
collaborator `wsFetchOctaveLookup` (returning a `uint16_t`); the four `Nat`
arguments are the `analogRead` results for the pitch CV, pitch knob,
slave-offset knob and wrap knob. -/
def loopStep (lookup : Nat → Nat) (cv pitchKnob slaveKnob wrapKnob : Nat)
    (s : OscState) : OscState :=
  let pwmv := (effectivePitch cv pitchKnob).toNat
  let wf := min (64 + (wrapKnob >>> 1)) 511
  { s with
    phase_inc := lookup pwmv % 65536
    slave_offset_measured := slaveKnob % 65536
    wrap_factor := wf % 65536
    neg_wrap_factor := max (wf >>> 1) 64 % 65536 }

/-- `master_phase += phase_inc;` (16-bit wraparound). -/
def advancePhase (s : OscState) : OscState :=
  { s with master_phase := (s.master_phase % 65536 + s.phase_inc % 65536) % 65536 }

/-- The slave-offset smoothing statement, as a function of the measured
target and the current value:
`if (cur < meas) cur++; else if (cur > meas) cur--;`. -/
def smoothStep (target c : Nat) : Nat :=
  if c % 65536 < target % 65536 then (c % 65536 + 1) % 65536
  else if target % 65536 < c % 65536 then (c % 65536 - 1) % 65536
  else c % 65536

/-- The smoothing statement acting on the state. -/
def smoothOffset (s : OscState) : OscState :=
  { s with slave_offset_current := smoothStep s.slave_offset_measured s.slave_offset_current }

/-- Master pseudo-sine block:
`master_value = master_phase; <<= 1; >>= 8; *= (~master_value) & 255; <<= 2; >>= 8;`
and `master_polarity = master_phase & 0b1000000000000000;`. -/
def masterSine (s : OscState) : OscState :=
  let v := s.master_phase % 65536
  let v := (v <<< 1) % 65536
  let v := v >>> 8
  let v := (v * ((65535 - v) &&& 255)) % 65536
  let v := (v <<< 2) % 65536
  let v := v >>> 8
  { s with
    master_value := v
    master_polarity := decide ((s.master_phase % 65536) &&& 32768 ≠ 0) }

/-- Slave phase derivation through the 32-bit `accumulator`:
`accumulator = master_phase; *= slave_offset_current; >>= 8; += master_phase; &= 65535;`
then `slave_phase = accumulator;`. -/
def computeSlavePhase (s : OscState) : OscState :=
  let a := s.master_phase % 65536
  let a := (a * (s.slave_offset_current % 65536)) % 4294967296
  let a := a >>> 8
  let a := (a + s.master_phase % 65536) % 4294967296
  let a := a &&& 65535
  { s with accumulator := a, slave_phase := a % 65536 }

/-- Slave pseudo-sine block, the same statements as `masterSine` applied to
`slave_phase` / `slave_value` / `slave_polarity`. -/
def slaveSine (s : OscState) : OscState :=
  let v := s.slave_phase % 65536
  let v := (v <<< 1) % 65536
  let v := v >>> 8
  let v := (v * ((65535 - v) &&& 255)) % 65536
  let v := (v <<< 2) % 65536
  let v := v >>> 8
  { s with
    slave_value := v
    slave_polarity := decide ((s.slave_phase % 65536) &&& 32768 ≠ 0) }

/-- Ring modulation:
`master_value *= slave_value; >>= 8; master_polarity ^= slave_polarity;`
then `master_value = master_value >> 1;`. -/
def ringMod (s : OscState) : OscState :=
  let v := (s.master_value % 65536 * (s.slave_value % 65536)) % 65536
  let v := v >>> 8
  let v := v >>> 1
  { s with master_value := v, master_polarity := xor s.master_polarity s.slave_polarity }

/-- The wave-fold multiply and rescale with an explicit factor `f`:
`master_value *= f; <<= 2; >>= 8;`. -/
def wrapScaleWith (s : OscState) (f : Nat) : OscState :=
  { s with master_value := ((((s.master_value % 65536 * (f % 65536)) % 65536) <<< 2) % 65536) >>> 8 }

/-- `master_value *= master_polarity ? wrap_factor : neg_wrap_factor;  <<= 2; >>= 8;`. -/
def wrapScale (s : OscState) : OscState :=
  wrapScaleWith s (if s.master_polarity then s.wrap_factor else s.neg_wrap_factor)

/-- The fold-back statements:
`if (master_value & 0b1111111100000000) { if (master_value & 0b0000000100000000)
master_polarity = !master_polarity; master_value &= 0b0000000011111111; }`
then `if (master_value > 127) master_value = 127 - (master_value & 0b0000000001111111);`. -/
def foldBack (s : OscState) : OscState :=
  let v := s.master_value % 65536
  let p := s.master_polarity
  let p := if v &&& 65280 ≠ 0 then (if v &&& 256 ≠ 0 then !p else p) else p
  let v := if v &&& 65280 ≠ 0 then v &&& 255 else v
  let v := if 127 < v then 127 - (v &&& 127) else v
  { s with master_value := v, master_polarity := p }

/-- The whole asymmetric wave-folding stage. -/
def waveFold (s : OscState) : OscState :=
  foldBack (wrapScale s)

/-- Final bipolar conversion:
`if (master_polarity) output = 127 - master_value; else output = 128 + master_value;`
(`output` is a `uint8_t`; `127 - master_value` is 16-bit arithmetic truncated to 8 bits). -/
def toOutput (s : OscState) : OscState :=
  let o := if s.master_polarity
    then (65536 + 127 - s.master_value % 65536) % 65536
    else (128 + s.master_value % 65536) % 65536
  { s with output := o % 256 }

/-- The state entering the ring-modulation statements within one `wsAudioLoop`
call: both pseudo-sines computed, phases advanced, offset smoothed. -/
def preRing (s : OscState) : OscState :=
  slaveSine (computeSlavePhase (masterSine (smoothOffset (advancePhase s))))

/-- The state entering the wave-folding stage within one `wsAudioLoop` call. -/
def ringStage (s : OscState) : OscState :=
  ringMod (preRing s)

/-- `wsAudioLoop()`, one audio-rate invocation (the initial `wsWriteToPWM(output)`
is a pure side effect on the PWM peripheral and does not change the state). -/
def wsAudioLoop (s : OscState) : OscState :=
  toOutput (waveFold (ringStage s))

/-- States reachable from power-on under a fixed octave-lookup collaborator,
by any interleaving of control-rate and audio-rate invocations with
`analogRead` results in [0,1023]. -/
inductive Reachable (lookup : Nat → Nat) : OscState → Prop where
  | init : Reachable lookup initState
  | ctrl {s : OscState} (cv pk sk wk : Nat) :
      cv ≤ 1023 → pk ≤ 1023 → sk ≤ 1023 → wk ≤ 1023 →
      Reachable lookup s → Reachable lookup (loopStep lookup cv pk sk wk s)
  | audio {s : OscState} : Reachable lookup s → Reachable lookup (wsAudioLoop s)

/-- The pseudo-sine magnitude as the spec states it: in 16-bit unsigned
arithmetic, `x = ((P << 1) mod 2^16) >> 8` and
`magnitude = ((x * ((~x) & 255)) << 2) >> 8`. -/
def sineMagnitudeSpec (p : Nat) : Nat :=
  let x := ((p <<< 1) % 65536) >>> 8
  ((((x * ((65535 - x) &&& 255)) % 65536) <<< 2) % 65536) >>> 8

/-- The pseudo-sine magnitude computed by the code, as a function of the phase. -/
def sineShape (p : Nat) : Nat :=
  (masterSine { initState with master_phase := p }).master_value

/-- The pseudo-sine polarity computed by the code, as a function of the phase. -/
def sinePolarity (p : Nat) : Bool :=
  (masterSine { initState with master_phase := p }).master_polarity

/-- The slave phase as a function of the master phase and the (smoothed)
slave offset alone. -/
def slavePhaseOf (m off : Nat) : Nat :=
  (computeSlavePhase { initState with master_phase := m, slave_offset_current := off }).slave_phase

/-- Claim C3's reading of the fold stage: `WrapFactor` on the polarity that
the final conversion maps to `128 + value`, which is the `false` branch. -/
def waveFoldC3 (s : OscState) : OscState :=
  foldBack (wrapScaleWith s (if s.master_polarity then s.neg_wrap_factor else s.wrap_factor))

/-- A constant octave-lookup table (a legitimate collaborator: monotone,
with `uint16_t` results). -/
def constLookup (p : Nat) : Nat :=
  16384 + 0 * p

/-- A state reached after one control-rate invocation with the wrap knob
fully clockwise. -/
def cexState : OscState :=
  loopStep constLookup 0 0 1 1023 initState

/-- The fold-back value as the claim states it: reduce modulo 256 when the
input reaches 256, then reflect about the 127 midpoint. -/
def foldBackValueSpec (v : Nat) : Nat :=
  let w := if 256 ≤ v then v % 256 else v
  if 127 < w then 127 - w % 128 else w

/-- The fold-back polarity as the claim states it: inverted exactly when the
input reaches 256 and its bit 8 is set. -/
def foldBackPolaritySpec (v : Nat) (p : Bool) : Bool :=
  if 256 ≤ v ∧ v / 256 % 2 = 1 then !p else p

/-! ### Bitwise bridging lemmas -/

theorem and_255 (n : Nat) : n &&& 255 = n % 256 := by
  have h := Nat.and_pow_two_sub_one_eq_mod n 8
  norm_num at h
  exact h

theorem and_127 (n : Nat) : n &&& 127 = n % 128 := by
  have h := Nat.and_pow_two_sub_one_eq_mod n 7
  norm_num at h
  exact h

theorem and_32767 (n : Nat) : n &&& 32767 = n % 32768 := by
  have h := Nat.and_pow_two_sub_one_eq_mod n 15
  norm_num at h
  exact h

theorem and_65535 (n : Nat) : n &&& 65535 = n % 65536 := by
  have h := Nat.and_pow_two_sub_one_eq_mod n 16
  norm_num at h
  exact h

theorem and_65280 (v : Nat) : v &&& 65280 = v / 256 % 256 * 256 := by
  have h1 : (65280 : Nat) = 2 ^ 8 * 255 := by norm_num
  have h2 : v / 256 % 256 * 256 = 2 ^ 8 * (v >>> 8 % 2 ^ 8) := by
    rw [Nat.shiftRight_eq_div_pow]
    norm_num [Nat.mul_comm]
  rw [h1, h2]
  apply Nat.eq_of_testBit_eq
  intro i
  simp only [Nat.testBit_and, Nat.testBit_mul_pow_two, Nat.testBit_mod_two_pow,
    Nat.testBit_shiftRight]
  have h255 : (255 : Nat) = 2 ^ 8 - 1 := by norm_num
  rw [h255, Nat.testBit_two_pow_sub_one]
  by_cases h8 : 8 ≤ i
  · have hi : 8 + (i - 8) = i := by omega
    simp [h8, hi, Bool.and_comm, Bool.and_left_comm]
  · simp [h8]

theorem and_65280_ne {v : Nat} (hv : v < 65536) : (v &&& 65280 ≠ 0) ↔ 256 ≤ v := by
  rw [and_65280]
  have h : v / 256 < 256 := by omega
  rw [Nat.mod_eq_of_lt h]
  omega

theorem and_256_ne (v : Nat) : (v &&& 256 ≠ 0) ↔ v / 256 % 2 = 1 := by
  have h : (256 : Nat) = 2 ^ 8 := by norm_num
  rw [h, Nat.and_two_pow]
  rcases h2 : Nat.testBit v 8 with _ | _ <;>
    rw [Nat.testBit_to_div_mod] at h2 <;> simp at h2 <;> simp [h2]

theorem and_32768_ne (v : Nat) : (v &&& 32768 ≠ 0) ↔ v / 32768 % 2 = 1 := by
  have h : (32768 : Nat) = 2 ^ 15 := by norm_num
  rw [h, Nat.and_two_pow]
  rcases h2 : Nat.testBit v 15 with _ | _ <;>
    rw [Nat.testBit_to_div_mod] at h2 <;> simp at h2 <;> simp [h2]

theorem testBit_15_eq {p : Nat} (hp : p < 65536) : p.testBit 15 = decide (32768 ≤ p) := by
  rw [Nat.testBit_to_div_mod]
  have h1 : p / 2 ^ 15 % 2 = p / 32768 := by
    have h2 : p / 32768 < 2 := by omega
    norm_num
    omega
  rw [h1]
  rcases Nat.lt_or_ge p 32768 with h | h
  · have h3 : p / 32768 = 0 := Nat.div_eq_of_lt h
    simp [h3]
    omega
  · have h3 : p / 32768 = 1 := by omega
    simp [h3, h]

/-! ### Bounds on the synthesis pipeline -/

theorem quad_le {x : Nat} (hx : x ≤ 255) : x * (255 - x) ≤ 16256 := by
  zify [hx]
  nlinarith [sq_nonneg (2 * (x : Int) - 255)]

theorem shift_le_255 (p : Nat) : (((p % 65536) <<< 1) % 65536) >>> 8 ≤ 255 := by
  rw [Nat.shiftRight_eq_div_pow]
  have hb : (p % 65536 <<< 1) % 65536 < 65536 := Nat.mod_lt _ (by norm_num)
  omega

theorem sineCore_le {x : Nat} (hx : x ≤ 255) :
    ((((x * ((65535 - x) &&& 255)) % 65536) <<< 2) % 65536) >>> 8 ≤ 254 := by
  rw [and_255]
  have hm : (65535 - x) % 256 = 255 - x := by omega
  rw [hm]
  have hq : x * (255 - x) ≤ 16256 := quad_le hx
  rw [Nat.mod_eq_of_lt (by omega : x * (255 - x) < 65536)]
  rw [Nat.shiftLeft_eq]
  have h4 : x * (255 - x) * 2 ^ 2 ≤ 65024 := by norm_num; omega
  rw [Nat.mod_eq_of_lt (by omega : x * (255 - x) * 2 ^ 2 < 65536)]
  rw [Nat.shiftRight_eq_div_pow]
  omega

theorem masterSine_value_le (s : OscState) : (masterSine s).master_value ≤ 254 := by
  simp only [masterSine]
  exact sineCore_le (shift_le_255 s.master_phase)

theorem slaveSine_value_le (s : OscState) : (slaveSine s).slave_value ≤ 254 := by
  simp only [slaveSine]
  exact sineCore_le (shift_le_255 s.slave_phase)

theorem foldBack_value_le (s : OscState) : (foldBack s).master_value ≤ 127 := by
  simp only [foldBack]
  split <;> split <;> omega

theorem waveFold_value_le (s : OscState) : (waveFold s).master_value ≤ 127 :=
  foldBack_value_le _

/-! ### Slave-offset smoothing -/

theorem smoothStep_of_lt {t c : Nat} (ht : t < 65536) (hc : c < 65536) (h : c < t) :
    smoothStep t c = c + 1 := by
  simp only [smoothStep, Nat.mod_eq_of_lt ht, Nat.mod_eq_of_lt hc]
  rw [if_pos h]
  omega

theorem smoothStep_of_gt {t c : Nat} (ht : t < 65536) (hc : c < 65536) (h : t < c) :
    smoothStep t c = c - 1 := by
  simp only [smoothStep, Nat.mod_eq_of_lt ht, Nat.mod_eq_of_lt hc]
  rw [if_neg (by omega), if_pos h]
  omega

theorem smoothStep_self {t : Nat} (ht : t < 65536) : smoothStep t t = t := by
  simp only [smoothStep, Nat.mod_eq_of_lt ht]
  simp

theorem smoothStep_lt_65536 {t c : Nat} : smoothStep t c < 65536 := by
  simp only [smoothStep]
  have h1 : t % 65536 < 65536 := Nat.mod_lt _ (by norm_num)
  have h2 : c % 65536 < 65536 := Nat.mod_lt _ (by norm_num)
  split <;> [skip; split] <;> omega

theorem smoothStep_iter_dist (t : Nat) (ht : t < 65536) :
    ∀ d c, c < 65536 → Nat.dist c t = d → (smoothStep t)^[d] c = t := by
  intro d
  induction d with
  | zero =>
    intro c _ hd
    simp only [Nat.dist] at hd
    have hct : c = t := by omega
    simp [hct]
  | succ d ih =>
    intro c hc hd
    rw [Function.iterate_succ_apply]
    rcases Nat.lt_trichotomy c t with h | h | h
    · rw [smoothStep_of_lt ht hc h]
      refine ih (c + 1) (by omega) ?_
      simp only [Nat.dist] at hd ⊢
      omega
    · exfalso
      simp only [Nat.dist] at hd
      omega
    · rw [smoothStep_of_gt ht hc h]
      refine ih (c - 1) (by omega) ?_
      simp only [Nat.dist] at hd ⊢
      omega

theorem wsAudioLoop_measured (s : OscState) :
    (wsAudioLoop s).slave_offset_measured = s.slave_offset_measured := rfl

theorem wsAudioLoop_current (s : OscState) :
    (wsAudioLoop s).slave_offset_current = smoothStep s.slave_offset_measured s.slave_offset_current := rfl

theorem wsAudioLoop_iter_current (n : Nat) (s : OscState) :
    (wsAudioLoop^[n] s).slave_offset_current
      = (smoothStep s.slave_offset_measured)^[n] s.slave_offset_current ∧
    (wsAudioLoop^[n] s).slave_offset_measured = s.slave_offset_measured := by
  induction n with
  | zero => exact ⟨rfl, rfl⟩
  | succ n ih =>
    rw [Function.iterate_succ_apply', Function.iterate_succ_apply']
    exact ⟨by rw [wsAudioLoop_current, ih.1, ih.2], by rw [wsAudioLoop_measured, ih.2]⟩

/-! ### Claims -/

/-- Claim C1: for every 16-bit phase value, the pseudo-sine stage computes, in
16-bit unsigned arithmetic, `magnitude = ((x * ((~x) & 255)) << 2) >> 8` with
`x = ((P << 1) mod 2^16) >> 8`, reports polarity as bit 15 of the phase, and
the code applies this identically to the master phase and the slave phase. -/
theorem spec_C1 (s : OscState) (hm : s.master_phase < 65536) (hs : s.slave_phase < 65536) :
    (masterSine s).master_value = sineMagnitudeSpec s.master_phase ∧
    (masterSine s).master_polarity = s.master_phase.testBit 15 ∧
    (slaveSine s).slave_value = sineMagnitudeSpec s.slave_phase ∧
    (slaveSine s).slave_polarity = s.slave_phase.testBit 15 := by
  refine ⟨?_, ?_, ?_, ?_⟩
  · simp only [masterSine, sineMagnitudeSpec, Nat.mod_eq_of_lt hm]
  · simp only [masterSine, Nat.mod_eq_of_lt hm]
    rw [testBit_15_eq hm, decide_eq_decide, and_32768_ne]
    omega
  · simp only [slaveSine, sineMagnitudeSpec, Nat.mod_eq_of_lt hs]
  · simp only [slaveSine, Nat.mod_eq_of_lt hs]
    rw [testBit_15_eq hs, decide_eq_decide, and_32768_ne]
    omega

/-- Witness for C1 at the power-on state (both phases are 0). -/
theorem spec_C1_witness :
    (masterSine initState).master_value = sineMagnitudeSpec initState.master_phase ∧
    (masterSine initState).master_polarity = initState.master_phase.testBit 15 ∧
    (slaveSine initState).slave_value = sineMagnitudeSpec initState.slave_phase ∧
    (slaveSine initState).slave_polarity = initState.slave_phase.testBit 15 :=
  spec_C1 initState (by decide) (by decide)

/-- Claim C8: the pseudo-sine magnitude of a 16-bit phase agrees with the
magnitude of the same phase with bit 15 cleared; the two differ only in the
reported polarity bit. -/
theorem spec_C8 (p : Nat) (hp : p < 65536) :
    sineShape (p % 32768) = sineShape p ∧
    p % 32768 = p &&& 32767 ∧
    sinePolarity (p % 32768) = false ∧
    sinePolarity p = p.testBit 15 := by
  refine ⟨?_, ?_, ?_, ?_⟩
  · have key : ((p % 32768 % 65536) <<< 1) % 65536 = ((p % 65536) <<< 1) % 65536 := by
      rw [Nat.shiftLeft_eq, Nat.shiftLeft_eq]
      norm_num
      omega
    simp only [sineShape, masterSine]
    rw [key]
  · rw [and_32767]
  · simp only [sinePolarity, masterSine, decide_eq_false_iff_not, ne_eq, not_not]
    by_contra h
    have h2 := (and_32768_ne _).mp h
    omega
  · simp only [sinePolarity, masterSine, Nat.mod_eq_of_lt hp]
    rw [testBit_15_eq hp, decide_eq_decide, and_32768_ne]
    omega

/-- Witness for C8 at a phase with bit 15 set. -/
theorem spec_C8_witness :
    sineShape (40000 % 32768) = sineShape 40000 ∧
    (40000 : Nat) % 32768 = 40000 &&& 32767 ∧
    sinePolarity (40000 % 32768) = false ∧
    sinePolarity 40000 = (40000 : Nat).testBit 15 :=
  spec_C8 40000 (by norm_num)

/-- Claim C9: every pseudo-sine magnitude is at most 254, so the
ring-modulation product is at most 64516, the 16-bit multiply never wraps
modulo 2^16, and the halved ring-modulated magnitude entering the fold
stage is at most 126. -/
theorem spec_C9 :
    (∀ p : Nat, sineShape p ≤ 254) ∧
    (∀ s : OscState,
      (preRing s).master_value ≤ 254 ∧
      (preRing s).slave_value ≤ 254 ∧
      (preRing s).master_value * (preRing s).slave_value ≤ 64516 ∧
      ((preRing s).master_value * (preRing s).slave_value) % 65536
        = (preRing s).master_value * (preRing s).slave_value ∧
      (ringStage s).master_value ≤ 126) := by
  constructor
  · intro p
    exact masterSine_value_le _
  · intro s
    have h1 : (preRing s).master_value ≤ 254 := masterSine_value_le _
    have h2 : (preRing s).slave_value ≤ 254 := slaveSine_value_le _
    have h3 : (preRing s).master_value * (preRing s).slave_value ≤ 64516 := by
      calc (preRing s).master_value * (preRing s).slave_value ≤ 254 * 254 :=
            Nat.mul_le_mul h1 h2
        _ = 64516 := by norm_num
    refine ⟨h1, h2, h3, Nat.mod_eq_of_lt (by omega), ?_⟩
    show (ringMod (preRing s)).master_value ≤ 126
    simp only [ringMod]
    rw [Nat.mod_eq_of_lt (show (preRing s).master_value < 65536 by omega),
      Nat.mod_eq_of_lt (show (preRing s).slave_value < 65536 by omega),
      Nat.shiftRight_eq_div_pow, Nat.shiftRight_eq_div_pow]
    omega

/-- Claim C10: after the wave-folding stage the value is at most 127, the
final conversion computes `128 + value` / `127 - value` without 8-bit
overflow or underflow, and the output lies in [128,255] exactly when the
final polarity flag is false and in [0,127] exactly when it is true. -/
theorem spec_C10 (s : OscState) :
    (waveFold (ringStage s)).master_value ≤ 127 ∧
    (wsAudioLoop s).output
      = (if (waveFold (ringStage s)).master_polarity
         then 127 - (waveFold (ringStage s)).master_value
         else 128 + (waveFold (ringStage s)).master_value) ∧
    (wsAudioLoop s).output ≤ 255 ∧
    (128 ≤ (wsAudioLoop s).output ↔ (waveFold (ringStage s)).master_polarity = false) ∧
    ((wsAudioLoop s).output ≤ 127 ↔ (waveFold (ringStage s)).master_polarity = true) := by
  have hv := waveFold_value_le (ringStage s)
  have hout : wsAudioLoop s = toOutput (waveFold (ringStage s)) := rfl
  set t := waveFold (ringStage s) with hts
  rw [hout]
  simp only [toOutput]
  refine ⟨hv, ?_, ?_, ?_, ?_⟩ <;>
    cases hp : t.master_polarity <;>
      simp only [hp, if_true, if_false, Bool.true_eq_false, Bool.false_eq_true,
        iff_true, iff_false, not_le] <;>
      omega

/-- Claim C2: the slave phase computed each sample is
`((M * S) >> 8 + M) mod 65536` with the product at full 32-bit precision,
and it is a pure function of the master phase and the smoothed offset. -/
theorem spec_C2 (M S : Nat) (hM : M < 65536) (hS : S ≤ 1023) (s : OscState)
    (hm : s.master_phase = M) (hc : s.slave_offset_current = S) :
    (computeSlavePhase s).slave_phase = ((M * S) >>> 8 + M) % 65536 ∧
    M * S < 4294967296 ∧
    (computeSlavePhase s).slave_phase = slavePhaseOf M S ∧
    (∀ s2 : OscState, (wsAudioLoop s2).slave_phase
        = slavePhaseOf (wsAudioLoop s2).master_phase (wsAudioLoop s2).slave_offset_current) := by
  have hMS : M * S ≤ 65535 * 1023 := Nat.mul_le_mul (by omega) hS
  refine ⟨?_, by omega, ?_, fun s2 => rfl⟩
  · simp only [computeSlavePhase, hm, hc]
    rw [and_65535, Nat.mod_eq_of_lt hM, Nat.mod_eq_of_lt (show S < 65536 by omega),
      Nat.shiftRight_eq_div_pow, Nat.shiftRight_eq_div_pow]
    omega
  · simp only [slavePhaseOf, computeSlavePhase, hm, hc]

/-- Witness for C2 at master phase 16384 and slave offset 1. -/
theorem spec_C2_witness :
    (computeSlavePhase
        { initState with master_phase := 16384, slave_offset_current := 1 }).slave_phase
      = ((16384 * 1) >>> 8 + 16384) % 65536 :=
  (spec_C2 16384 1 (by norm_num) (by norm_num) _ rfl rfl).1

/-- Claim C4: for every 16-bit value entering the fold-back step, the value of
at least 256 inverts the polarity exactly when bit 8 is set and is reduced
modulo 256, then values above 127 are reflected to `127 - (value & 127)`;
values already in [0,127] pass through unchanged with polarity unchanged. -/
theorem spec_C4 (v : Nat) (p : Bool) (hv : v < 65536) :
    (foldBack { initState with master_value := v, master_polarity := p }).master_value
      = foldBackValueSpec v ∧
    (foldBack { initState with master_value := v, master_polarity := p }).master_polarity
      = foldBackPolaritySpec v p ∧
    (v ≤ 127 → foldBack { initState with master_value := v, master_polarity := p }
      = { initState with master_value := v, master_polarity := p }) := by
  have hmod : v % 65536 = v := Nat.mod_eq_of_lt hv
  refine ⟨?_, ?_, ?_⟩
  · simp only [foldBack, foldBackValueSpec, hmod]
    by_cases h1 : 256 ≤ v
    · rw [if_pos ((and_65280_ne hv).mpr h1), if_pos h1, and_255]
      by_cases h2 : 127 < v % 256
      · rw [if_pos h2, if_pos h2, and_127]
      · rw [if_neg h2, if_neg h2]
    · rw [if_neg (fun hc => h1 ((and_65280_ne hv).mp hc)), if_neg h1]
      by_cases h2 : 127 < v
      · rw [if_pos h2, if_pos h2, and_127]
      · rw [if_neg h2, if_neg h2]
  · simp only [foldBack, foldBackPolaritySpec, hmod]
    by_cases h1 : 256 ≤ v
    · rw [if_pos ((and_65280_ne hv).mpr h1)]
      by_cases h2 : v / 256 % 2 = 1
      · rw [if_pos ((and_256_ne v).mpr h2), if_pos ⟨h1, h2⟩]
      · rw [if_neg (fun hc => h2 ((and_256_ne v).mp hc)), if_neg (fun hc => h2 hc.2)]
    · rw [if_neg (fun hc => h1 ((and_65280_ne hv).mp hc)), if_neg (fun hc => h1 hc.1)]
  · intro h127
    have hne : ¬(v &&& 65280 ≠ 0) := fun hc => absurd ((and_65280_ne hv).mp hc) (by omega)
    have h2 : ¬(127 < v) := by omega
    ext <;> simp [foldBack, hmod, hne, h2]

/-- Witness for C4 at input 300 (bit 8 set, so the polarity flips). -/
theorem spec_C4_witness :
    (foldBack { initState with master_value := 300, master_polarity := false }).master_value
      = foldBackValueSpec 300 :=
  (spec_C4 300 false (by norm_num)).1

/-- Claim C5: the smoothing step moves the current offset by exactly 1 toward
the target each sample, leaves it unchanged exactly at the target, reaches the
target in exactly `|c - t|` samples, never overshoots, and stays at the target
once reached; iterating `wsAudioLoop` with a fixed measured target iterates
exactly this step. -/
theorem spec_C5 (t c : Nat) (ht : t < 65536) (hc : c < 65536) :
    (c < t → smoothStep t c = c + 1) ∧
    (t < c → smoothStep t c = c - 1) ∧
    (smoothStep t c = c ↔ c = t) ∧
    ((smoothStep t)^[Nat.dist c t] c = t) ∧
    (∀ n : Nat, (smoothStep t)^[n] c = t → (smoothStep t)^[n + 1] c = t) ∧
    (c ≤ t → smoothStep t c ≤ t) ∧
    (t ≤ c → t ≤ smoothStep t c) ∧
    (∀ s : OscState, s.slave_offset_measured = t → s.slave_offset_current = c →
      (wsAudioLoop^[Nat.dist c t] s).slave_offset_current = t) := by
  refine ⟨smoothStep_of_lt ht hc, smoothStep_of_gt ht hc, ?_, ?_, ?_, ?_, ?_, ?_⟩
  · constructor
    · intro h
      rcases Nat.lt_trichotomy c t with hlt | heq | hgt
      · rw [smoothStep_of_lt ht hc hlt] at h
        omega
      · exact heq
      · rw [smoothStep_of_gt ht hc hgt] at h
        omega
    · intro h
      subst h
      exact smoothStep_self ht
  · exact smoothStep_iter_dist t ht _ c hc rfl
  · intro n hn
    rw [Function.iterate_succ_apply', hn, smoothStep_self ht]
  · intro h
    rcases Nat.eq_or_lt_of_le h with heq | hlt
    · rw [heq, smoothStep_self ht]
    · rw [smoothStep_of_lt ht hc hlt]
      omega
  · intro h
    rcases Nat.eq_or_lt_of_le h with heq | hlt
    · rw [← heq, smoothStep_self ht]
    · rw [smoothStep_of_gt ht hc hlt]
      omega
  · intro s hmeas hcur
    rw [(wsAudioLoop_iter_current (Nat.dist c t) s).1, hmeas, hcur]
    exact smoothStep_iter_dist t ht _ c hc rfl

/-- Witness for C5: from offset 2 toward target 5, exactly 3 steps converge. -/
theorem spec_C5_witness : (smoothStep 5)^[Nat.dist 2 5] 2 = 5 :=
  (spec_C5 5 2 (by norm_num) (by norm_num)).2.2.2.1

/-- Claim C6: after the control-rate sampler runs with a fold-knob reading in
[0,1023], `WrapFactor = min(64 + knob/2, 511)` lies in [64,511] and
`NegWrapFactor = max(WrapFactor/2, 64)` lies in [64,255] and never exceeds
`WrapFactor`. -/
theorem spec_C6 (lookup : Nat → Nat) (cv pk sk wk : Nat) (hwk : wk ≤ 1023) (s : OscState) :
    (loopStep lookup cv pk sk wk s).wrap_factor = min (64 + wk / 2) 511 ∧
    (loopStep lookup cv pk sk wk s).neg_wrap_factor
      = max ((loopStep lookup cv pk sk wk s).wrap_factor / 2) 64 ∧
    64 ≤ (loopStep lookup cv pk sk wk s).wrap_factor ∧
    (loopStep lookup cv pk sk wk s).wrap_factor ≤ 511 ∧
    64 ≤ (loopStep lookup cv pk sk wk s).neg_wrap_factor ∧
    (loopStep lookup cv pk sk wk s).neg_wrap_factor ≤ 255 ∧
    (loopStep lookup cv pk sk wk s).neg_wrap_factor ≤ (loopStep lookup cv pk sk wk s).wrap_factor := by
  have hsh : ∀ n : Nat, n >>> 1 = n / 2 := fun n => by
    rw [Nat.shiftRight_eq_div_pow]
  simp only [loopStep, hsh]
  refine ⟨?_, ?_, ?_, ?_, ?_, ?_, ?_⟩ <;> omega

/-- Witness for C6 with the fold knob fully clockwise. -/
theorem spec_C6_witness :
    (loopStep constLookup 0 0 1 1023 initState).wrap_factor = min (64 + 1023 / 2) 511 :=
  (spec_C6 constLookup 0 0 1 1023 (by norm_num) initState).1

/-- Claim C7: the effective pitch reading is
`clamp(CV + max(0, knob - 600), 0, 1023)`; in particular CV=0, knob=500 gives
0 and CV=0, knob=800 gives 200; the sampler feeds it to the octave lookup. -/
theorem spec_C7 (cv knob : Nat) (hcv : cv ≤ 1023) (hk : knob ≤ 1023) :
    effectivePitch cv knob = max 0 (min 1023 ((cv : Int) + max 0 ((knob : Int) - 600))) ∧
    effectivePitch 0 500 = 0 ∧
    effectivePitch 0 800 = 200 ∧
    (∀ (lookup : Nat → Nat) (sk wk : Nat) (s : OscState),
      (loopStep lookup cv knob sk wk s).phase_inc
        = lookup (effectivePitch cv knob).toNat % 65536) := by
  refine ⟨?_, by decide, by decide, fun lookup sk wk s => rfl⟩
  simp only [effectivePitch]
  omega

/-- Witness for C7 at CV=0, knob=800. -/
theorem spec_C7_witness :
    effectivePitch (0 : Nat) (800 : Nat)
      = max 0 (min 1023 (((0 : Nat) : Int) + max 0 (((800 : Nat) : Int) - 600))) :=
  (spec_C7 0 800 (by norm_num) (by norm_num)).1

/-- Counterexample to claim C3 as stated: at a state reached from power-on
(one control-rate invocation with the wrap knob fully clockwise under a
legitimate constant octave table, then entering the audio loop), the
pre-fold polarity is the one that the final conversion maps to
`128 + value` (the claim's "positive"), yet the code multiplies by
`neg_wrap_factor`, not `wrap_factor`: the code's fold result (9) differs
from the claim's predicted result (17). -/
theorem spec_C3_counterexample :
    Reachable constLookup cexState ∧
    Monotone constLookup ∧
    (∀ p : Nat, constLookup p < 65536) ∧
    (ringStage cexState).master_polarity = false ∧
    (toOutput { ringStage cexState with master_polarity := false, master_value := 0 }).output = 128 ∧
    (waveFold (ringStage cexState)).master_value = 9 ∧
    (waveFoldC3 (ringStage cexState)).master_value = 17 ∧
    waveFold (ringStage cexState) ≠ waveFoldC3 (ringStage cexState) := by
  refine ⟨?_, ?_, ?_, by decide, by decide, by decide, by decide, by decide⟩
  · exact Reachable.ctrl 0 0 1 1023 (by norm_num) (by norm_num) (by norm_num) (by norm_num)
      Reachable.init
  · intro a b _
    simp [constLookup]
  · intro p
    norm_num [constLookup]

/-- Claim C3 amended: the ring-modulated magnitude is multiplied by
`WrapFactor` when the polarity flag is the one that step 9 maps to
`Output = 127 - value`, and by `NegWrapFactor` when it is the one mapped to
`Output = 128 + value`. -/
theorem spec_C3 (s : OscState) (v : Nat) (hv : v ≤ 127) :
    waveFold s
      = foldBack (wrapScaleWith s
          (if s.master_polarity then s.wrap_factor else s.neg_wrap_factor)) ∧
    (toOutput { s with master_polarity := true, master_value := v }).output = 127 - v ∧
    (toOutput { s with master_polarity := false, master_value := v }).output = 128 + v := by
  refine ⟨rfl, ?_, ?_⟩ <;>
    simp only [toOutput] <;>
    simp <;>
    omega

/-- Witness for the amended C3 at a concrete state and value 5. -/
theorem spec_C3_witness :
    waveFold cexState
      = foldBack (wrapScaleWith cexState
          (if cexState.master_polarity then cexState.wrap_factor else cexState.neg_wrap_factor)) ∧
    (toOutput { cexState with master_polarity := true, master_value := 5 }).output = 127 - 5 ∧
    (toOutput { cexState with master_polarity := false, master_value := 5 }).output = 128 + 5 :=
  spec_C3 cexState 5 (by norm_num)

end Scheveningen
